import Mathlib

/-!
Shallow embedding of the filebase repository (Go, SQLite-backed file
metadata inventory).  The relational state of `src/main.go` — the `file`
table, the `sample` table and the temporary `found` table — is modelled as
explicit lists; the prepared statements, the batched-transaction writer
goroutine, the scan orchestration (`scanDir`), the walker callback and the
ranking queries are translated function by function from the source.
Machine integers (sizes, unix times, mode bits) are modelled as `Int`;
SQLite integer division truncates toward zero, which is `Int.tdiv`.
-/

namespace Filebase

/-- Batch size of the transaction writer, `filesPerBatch` in src/main.go. -/
def filesPerBatch : Nat := 1024

/-- One row of the `sample` table: (fileid, sampletime, mode, size, mtime),
primary key (fileid, sampletime). -/
structure Sample where
  fileid : Nat
  sampletime : Int
  mode : Int
  size : Int
  mtime : Int
deriving Repr, DecidableEq

/-- The relational state held by one open database connection: the `file`
table as (fileid, path) rows, the `sample` table, the temporary `found`
table (the seen-set, created empty by `newFileDB` when the connection is
opened), and the next surrogate fileid handed out on insert. -/
structure Store where
  files : List (Nat × String)
  samples : List Sample
  found : List Nat
  nextId : Nat
deriving Repr, DecidableEq

/-- One record handed from the walker to the writer over the channel:
path, stat snapshot (mode, size, mtime) and the wall-clock time `now`
captured at the moment of discovery (`insertJob` in src/main.go). -/
structure FileRec where
  path : String
  mode : Int
  size : Int
  mtime : Int
  now : Int
deriving Repr, DecidableEq

/-- The prepared statement `SELECT fileid FROM file WHERE path = ?`
(`getFileID` in src/main.go); `none` models `sql.ErrNoRows`. -/
def lookupFileId (files : List (Nat × String)) (path : String) : Option Nat :=
  (files.find? (fun f => f.2 == path)).map (fun f => f.1)

/-- The lookup-or-insert prefix of `insertOneSample` (src/main.go:193-203):
look the path up; on `sql.ErrNoRows` insert a `file` row and take
`LastInsertId`.  Returns the resolved fileid, the updated file table and
the updated next surrogate id. -/
def resolveOrCreateFile (files : List (Nat × String)) (nextId : Nat) (path : String) :
    Nat × List (Nat × String) × Nat :=
  match lookupFileId files path with
  | some id => (id, files, nextId)
  | none => (nextId, files ++ [(nextId, path)], nextId + 1)

/-- Violation test for the `sample` primary key (fileid, sampletime):
`insertSample` fails with a UNIQUE-constraint error when a row with the
same key already exists. -/
def sampleKeyClash (samples : List Sample) (fileid : Nat) (t : Int) : Bool :=
  samples.any (fun s => s.fileid == fileid && s.sampletime == t)

/-- `insertOneSample` of src/main.go:189-212 (identical text at
src/unnamed/part_000:180-203): resolve or create the file row, insert the
sample (UNIQUE-constraint failure on a (fileid, sampletime) clash is passed
to `fatal`), mark the fileid in `found` (whose own primary key makes a
second mark of the same fileid a constraint error passed to `fatal`).
`Except.error` models `fatal(err)` firing: the process dies with the
transaction uncommitted. -/
def insertOneSample (tx : Store) (r : FileRec) : Except String Store :=
  let rcf := resolveOrCreateFile tx.files tx.nextId r.path
  if sampleKeyClash tx.samples rcf.1 r.now then
    Except.error "UNIQUE constraint failed: sample.fileid, sample.sampletime"
  else if tx.found.contains rcf.1 then
    Except.error "UNIQUE constraint failed: found.fileid"
  else
    Except.ok { files := rcf.2.1,
                samples := tx.samples ++ [⟨rcf.1, r.now, r.mode, r.size, r.mtime⟩],
                found := tx.found ++ [rcf.1],
                nextId := rcf.2.2 }

/-- The second revision of `insertOneSample` (src/main.go:510-532).  In that
revision the `res, err := ...` inside the not-found branch shadows the outer
`err`, so the `fatal(err)` placed after the branch still sees the outer
`sql.ErrNoRows` from the lookup: for a path not yet in the file table the
function inserts the file row and then dies in `fatal` before inserting the
sample, and the uncommitted transaction is discarded.  For a path already
present (outer err nil) it behaves like the other revision. -/
def insertOneSampleV2 (tx : Store) (r : FileRec) : Except String Store :=
  match lookupFileId tx.files r.path with
  | none => Except.error "sql: no rows in result set"
  | some fileid =>
    if sampleKeyClash tx.samples fileid r.now then
      Except.error "UNIQUE constraint failed: sample.fileid, sample.sampletime"
    else if tx.found.contains fileid then
      Except.error "UNIQUE constraint failed: found.fileid"
    else
      Except.ok { files := tx.files,
                  samples := tx.samples ++ [⟨fileid, r.now, r.mode, r.size, r.mtime⟩],
                  found := tx.found ++ [fileid],
                  nextId := tx.nextId }

/-- State of the writer goroutine of `getFiles` (src/main.go:148-173):
`committed` is the durable store produced by the commits so far, `tx` is
the view of the open transaction, `count` is the loop counter `i`, and
`commits` counts executed `tx.Commit()` calls. -/
structure WriterState where
  committed : Store
  tx : Store
  count : Nat
  commits : Nat
deriving Repr, DecidableEq

/-- The writer loop of src/main.go:148-173: consume the record stream; after
each record, commit and reopen the transaction when the running count is a
multiple of `filesPerBatch`; when the stream ends, commit the final
(possibly empty) batch.  A failed insert makes `fatal` kill the process:
the open transaction is discarded (never committed) and the error
surfaces, leaving `committed` as the durable store. -/
def writerRun (ws : WriterState) : List FileRec → WriterState × Option String
  | [] =>
    ({ committed := ws.tx, tx := ws.tx, count := ws.count, commits := ws.commits + 1 }, none)
  | r :: rs =>
    match insertOneSample ws.tx r with
    | Except.error e => ({ ws with tx := ws.committed }, some e)
    | Except.ok tx2 =>
      if (ws.count + 1) % filesPerBatch = 0 then
        writerRun { committed := tx2, tx := tx2, count := ws.count + 1,
                    commits := ws.commits + 1 } rs
      else
        writerRun { committed := ws.committed, tx := tx2, count := ws.count + 1,
                    commits := ws.commits } rs

/-- Writer state at the top of the goroutine: first `db.Begin()` makes the
transaction view coincide with the durable store, `i = 0`, no commits yet. -/
def freshWriter (s : Store) : WriterState :=
  { committed := s, tx := s, count := 0, commits := 0 }

/-- Plain sequential application of a record stream, ignoring batching:
the reference against which the batched writer is measured. -/
def applyAll (s : Store) : List FileRec → Except String Store
  | [] => Except.ok s
  | r :: rs =>
    match insertOneSample s r with
    | Except.error e => Except.error e
    | Except.ok s2 => applyAll s2 rs

/-- The eviction statement of `scanDir` (src/main.go:124):
`DELETE FROM file WHERE fileid NOT IN (SELECT fileid FROM found)`, with the
schema's `ON DELETE CASCADE` removing the samples of every deleted file.
The `found` table itself is not touched. -/
def evict (s : Store) : Store :=
  let keep := s.files.filter (fun f => s.found.contains f.1)
  { files := keep,
    samples := s.samples.filter (fun smp => (keep.map Prod.fst).contains smp.fileid),
    found := s.found,
    nextId := s.nextId }

/-- `scanDir` (src/main.go:121-126) for one requested root.  The `walk`
argument is the outcome of `getFiles`' interaction with the file system:
`none` when canonicalization of the root fails (`filepath.Abs` or
`filepath.EvalSymlinks` errors, src/main.go:128-138, logged, `getFiles`
returns without starting walker or writer), `some rs` when the walk runs
and produces the record stream `rs`.  After `getFiles` returns and
`wg.Wait()` passes, the eviction DELETE executes — also on the
canonicalization-failure path, where `getFiles` did nothing.  A writer
error kills the process before the DELETE. -/
def scanDir (s : Store) (walk : Option (List FileRec)) : Except String Store :=
  match walk with
  | none => Except.ok (evict s)
  | some rs =>
    match writerRun (freshWriter s) rs with
    | (ws, none) => Except.ok (evict ws.committed)
    | (_, some e) => Except.error e

/-- One invocation of the `filepath.Walk` callback (src/main.go:175-186):
either the entry could not be stat'ed (`err != nil`, carrying a message),
or it was stat'ed and is regular or not, with its stat snapshot and the
wall-clock instant `now` at which the walker would emit it. -/
inductive WalkEntry where
  | statErr (msg : String) : WalkEntry
  | entry (path : String) (regular : Bool) (mode size mtime now : Int) : WalkEntry
deriving Repr, DecidableEq

/-- The record stream produced by the walk callback over a traversal:
a stat error is logged and skipped (`return nil`), a non-regular entry
(directory, symlink, device) produces nothing, a regular entry produces
one record. -/
def walkRecords : List WalkEntry → List FileRec
  | [] => []
  | WalkEntry.statErr _ :: es => walkRecords es
  | WalkEntry.entry p reg mode size mtime now :: es =>
    if reg then ⟨p, mode, size, mtime, now⟩ :: walkRecords es
    else walkRecords es

/-- Insertion of one element into a list sorted by the Boolean comparator
`le`, keeping it sorted.  Used to model the `ORDER BY` clauses of the
ranking queries by a sort that evaluates by kernel reduction. -/
def insertSorted {α : Type} (le : α → α → Bool) (a : α) : List α → List α
  | [] => [a]
  | b :: l => if le a b then a :: b :: l else b :: insertSorted le a l

/-- Insertion sort by the Boolean comparator `le`, modelling `ORDER BY`. -/
def sortBy {α : Type} (le : α → α → Bool) : List α → List α
  | [] => []
  | a :: l => insertSorted le a (sortBy le l)

/-- SQL aggregate `max` over a list of integers, `NULL` (none) on the empty
set. -/
def maxT : List Int → Option Int
  | [] => none
  | t :: ts =>
    match maxT ts with
    | none => some t
    | some m => some (max t m)

/-- SQL aggregate `min` over a list of integers, `NULL` (none) on the empty
set. -/
def minT : List Int → Option Int
  | [] => none
  | t :: ts =>
    match minT ts with
    | none => some t
    | some m => some (min t m)

/-- Capture times of the samples of one file. -/
def timesOf (samples : List Sample) (fid : Nat) : List Int :=
  (samples.filter (fun s => s.fileid == fid)).map (fun s => s.sampletime)

/-- Sizes of the samples of one file. -/
def sizesOf (samples : List Sample) (fid : Nat) : List Int :=
  (samples.filter (fun s => s.fileid == fid)).map (fun s => s.size)

/-- Join rows contributed by one `file` row to the latest-sample queries
(src/main.go:289-326): the samples of that file whose capture time equals
the correlated subquery `select max(sampletime) from sample where
file.fileid = sample.fileid`, paired with the file's path. -/
def latestRowsFor (samples : List Sample) (f : Nat × String) : List (String × Sample) :=
  (samples.filter (fun smp =>
      smp.fileid == f.1 && maxT (timesOf samples f.1) == some smp.sampletime)).map
    (fun smp => (f.2, smp))

/-- The unsorted result set of the latest-sample join, one block of rows per
`file` table row. -/
def latestJoinAux (samples : List Sample) : List (Nat × String) → List (String × Sample)
  | [] => []
  | f :: fs => latestRowsFor samples f ++ latestJoinAux samples fs

/-- The latest-sample join over the whole store. -/
def latestJoin (s : Store) : List (String × Sample) :=
  latestJoinAux s.samples s.files

/-- Comparator of `order by sample.size DESC`. -/
def bySizeDesc (a b : String × Sample) : Bool := decide (b.2.size ≤ a.2.size)

/-- Comparator of `order by sample.mtime ASC`. -/
def byMtimeAsc (a b : String × Sample) : Bool := decide (a.2.mtime ≤ b.2.mtime)

/-- Comparator of `order by sample.mtime DESC`. -/
def byMtimeDesc (a b : String × Sample) : Bool := decide (b.2.mtime ≤ a.2.mtime)

/-- Shared shape of `getBiggest`, `getOldest` and `getNewest`
(src/main.go:289-326): the latest-sample join, ordered by the query's key,
truncated to the requested count by `LIMIT ?` together with
`rowsToResults`' bound. -/
def latestRanking (s : Store) (le : (String × Sample) → (String × Sample) → Bool)
    (n : Nat) : List (String × Sample) :=
  (sortBy le (latestJoin s)).take n

/-- `getBiggest` (src/main.go:289-300). -/
def getBiggest (s : Store) (n : Nat) : List (String × Sample) :=
  latestRanking s bySizeDesc n

/-- `getOldest` (src/main.go:302-313). -/
def getOldest (s : Store) (n : Nat) : List (String × Sample) :=
  latestRanking s byMtimeAsc n

/-- `getNewest` (src/main.go:315-326). -/
def getNewest (s : Store) (n : Nat) : List (String × Sample) :=
  latestRanking s byMtimeDesc n

/-- The `rate` column of `getFastest` (src/main.go:330-331):
`(max(size) - min(size)) / (max(sampletime) - min(sampletime))` over all
samples of the file, SQLite integer division truncating toward zero, and
`NULL` (none) when the denominator is zero (single sample, or all samples
in the same second). -/
def rateOf (samples : List Sample) (fid : Nat) : Option Int :=
  match maxT (timesOf samples fid), minT (timesOf samples fid),
        maxT (sizesOf samples fid), minT (sizesOf samples fid) with
  | some tmax, some tmin, some zmax, some zmin =>
    if tmax - tmin = 0 then none
    else some (Int.tdiv (zmax - zmin) (tmax - tmin))
  | _, _, _, _ => none

/-- The groups of `group by sample.fileid` over the join
`from sample, file where file.fileid == sample.fileid`: the distinct
fileids occurring in the sample table that have a matching file row. -/
def fastestGroups (s : Store) : List Nat :=
  ((s.samples.map (fun smp => smp.fileid)).dedup).filter
    (fun fid => s.files.any (fun f => f.1 == fid))

/-- Comparator of `order by rate DESC` with SQLite's NULL ordering: NULL
sorts as smaller than every value, hence last in descending order. -/
def rateGE (a b : Nat × Option Int) : Bool :=
  match a.2, b.2 with
  | _, none => true
  | none, some _ => false
  | some x, some y => decide (y ≤ x)

/-- `getFastest` (src/main.go:328-349), reduced to the decision-relevant
columns (group fileid and rate): the per-file rate rows, ordered by rate
descending with NULL rates last, truncated to the requested count. -/
def getFastest (s : Store) (n : Nat) : List (Nat × Option Int) :=
  (sortBy rateGE ((fastestGroups s).map (fun fid => (fid, rateOf s.samples fid)))).take n

/-- Correctness bundle for one latest-sample ranking query over a store:
the result has exactly `min n (number of join rows)` rows (never padded),
each file contributes at most one row, and every returned row pairs a
file-table row's path with one of that file's samples whose capture time
is maximal among all samples of that file. -/
def RankingOk (s : Store) (n : Nat) (out : List (String × Sample)) : Prop :=
  out.length = min n (latestJoin s).length ∧
  (∀ fid, out.countP (fun row => row.2.fileid == fid) ≤ 1) ∧
  ∀ row ∈ out, row.2 ∈ s.samples ∧ (row.2.fileid, row.1) ∈ s.files ∧
    ∀ smp ∈ s.samples, smp.fileid = row.2.fileid →
      smp.sampletime ≤ row.2.sampletime

/-! Helper lemmas about the insertion sort used to model `ORDER BY`. -/

theorem insertSorted_perm {α : Type} (le : α → α → Bool) (a : α) (l : List α) :
    List.Perm (insertSorted le a l) (a :: l) := by
  induction l with
  | nil => simp [insertSorted]
  | cons b t ih =>
    simp only [insertSorted]
    by_cases hab : le a b = true
    · simp [hab]
    · simp only [hab, if_false]
      exact List.Perm.trans (List.Perm.cons b ih) (List.Perm.swap a b t)

theorem sortBy_perm {α : Type} (le : α → α → Bool) (l : List α) :
    List.Perm (sortBy le l) l := by
  induction l with
  | nil => simp [sortBy]
  | cons a t ih =>
    exact List.Perm.trans (insertSorted_perm le a (sortBy le t)) (List.Perm.cons a ih)

theorem mem_insertSorted {α : Type} {le : α → α → Bool} {a x : α} {l : List α} :
    x ∈ insertSorted le a l ↔ x = a ∨ x ∈ l := by
  rw [(insertSorted_perm le a l).mem_iff]
  simp

theorem pairwise_insertSorted {α : Type} {le : α → α → Bool}
    (htr : ∀ a b c, le a b = true → le b c = true → le a c = true)
    (hto : ∀ a b, le a b = true ∨ le b a = true)
    (a : α) (l : List α) (h : List.Pairwise (fun x y => le x y = true) l) :
    List.Pairwise (fun x y => le x y = true) (insertSorted le a l) := by
  induction l with
  | nil => simp [insertSorted]
  | cons b t ih =>
    rcases List.pairwise_cons.mp h with ⟨hb, ht⟩
    simp only [insertSorted]
    by_cases hab : le a b = true
    · simp only [hab, if_true]
      refine List.Pairwise.cons ?_ h
      intro y hy
      rcases List.mem_cons.mp hy with rfl | hyt
      · exact hab
      · exact htr a b y hab (hb y hyt)
    · simp only [hab, if_false]
      refine List.Pairwise.cons ?_ (ih ht)
      intro y hy
      rcases mem_insertSorted.mp hy with h2 | hyt
      · rw [h2]
        rcases hto a b with h1 | h1
        · exact absurd h1 hab
        · exact h1
      · exact hb y hyt

theorem pairwise_sortBy {α : Type} {le : α → α → Bool}
    (htr : ∀ a b c, le a b = true → le b c = true → le a c = true)
    (hto : ∀ a b, le a b = true ∨ le b a = true)
    (l : List α) :
    List.Pairwise (fun x y => le x y = true) (sortBy le l) := by
  induction l with
  | nil => simp [sortBy]
  | cons a t ih => exact pairwise_insertSorted htr hto a (sortBy le t) ih

/-! Helper lemmas about the SQL aggregates. -/

theorem maxT_ne_none {t : Int} {ts : List Int} : maxT (t :: ts) ≠ none := by
  simp only [maxT]
  cases maxT ts <;> simp

theorem maxT_spec {ts : List Int} {m : Int} (h : maxT ts = some m) :
    m ∈ ts ∧ ∀ t ∈ ts, t ≤ m := by
  induction ts generalizing m with
  | nil => simp [maxT] at h
  | cons t ts ih =>
    simp only [maxT] at h
    cases hts : maxT ts with
    | none =>
      rw [hts] at h
      cases ts with
      | nil =>
        simp at h
        subst h
        simp
      | cons u us => exact absurd hts maxT_ne_none
    | some m' =>
      rw [hts] at h
      simp at h
      subst h
      rcases ih hts with ⟨hmem, hle⟩
      constructor
      · rcases le_or_lt t m' with h1 | h1
        · exact List.mem_cons_of_mem t (by simpa [max_eq_right h1] using hmem)
        · simp [max_eq_left h1.le]
      · intro u hu
        rcases List.mem_cons.mp hu with rfl | hu
        · exact le_max_left _ _
        · exact le_trans (hle u hu) (le_max_right _ _)

theorem maxT_isSome {ts : List Int} (h : ts ≠ []) : (maxT ts).isSome = true := by
  cases ts with
  | nil => exact absurd rfl h
  | cons t ts =>
    simp only [maxT]
    cases maxT ts <;> simp

/-! Helper lemmas about the batched writer loop. -/

theorem writerRun_ok_applyAll (rs : List FileRec) :
    ∀ ws ws', writerRun ws rs = (ws', none) →
      applyAll ws.tx rs = Except.ok ws'.committed ∧ ws'.tx = ws'.committed := by
  induction rs with
  | nil =>
    intro ws ws' h
    simp only [writerRun, Prod.mk.injEq] at h
    rw [← h.1]
    exact ⟨rfl, rfl⟩
  | cons r rs ih =>
    intro ws ws' h
    simp only [writerRun] at h
    split at h
    next e heq => simp at h
    next tx2 heq =>
      simp only [applyAll, heq]
      split at h
      next hmod => exact ih _ _ h
      next hmod => exact ih _ _ h

theorem writerRun_ok_commits (rs : List FileRec) :
    ∀ ws ws', writerRun ws rs = (ws', none) →
      ws'.commits + ws.count / filesPerBatch =
        ws.commits + (ws.count + rs.length) / filesPerBatch + 1 := by
  induction rs with
  | nil =>
    intro ws ws' h
    simp only [writerRun, Prod.mk.injEq] at h
    rw [← h.1]
    simp
    omega
  | cons r rs ih =>
    intro ws ws' h
    simp only [writerRun] at h
    split at h
    next e heq => simp at h
    next tx2 heq =>
      split at h
      next hmod =>
        have hdvd : filesPerBatch ∣ ws.count + 1 := Nat.dvd_of_mod_eq_zero hmod
        have hdiv : (ws.count + 1) / filesPerBatch = ws.count / filesPerBatch + 1 := by
          rw [Nat.succ_div, if_pos hdvd]
        have hrec := ih _ _ h
        simp only at hrec
        have he : ws.count + 1 + rs.length = ws.count + (rs.length + 1) := by omega
        rw [he] at hrec
        simp only [List.length_cons]
        omega
      next hmod =>
        have hndvd : ¬ filesPerBatch ∣ ws.count + 1 := by
          intro hdvd
          rcases hdvd with ⟨k, hk⟩
          exact hmod (by rw [hk]; simp [Nat.mul_mod_right])
        have hdiv : (ws.count + 1) / filesPerBatch = ws.count / filesPerBatch := by
          rw [Nat.succ_div, if_neg hndvd]
          omega
        have hrec := ih _ _ h
        simp only at hrec
        have he : ws.count + 1 + rs.length = ws.count + (rs.length + 1) := by omega
        rw [he] at hrec
        simp only [List.length_cons]
        omega

theorem writerRun_error_committed (rs : List FileRec) :
    ∀ ws ws' e, writerRun ws rs = (ws', some e) →
      (ws'.committed = ws.committed ∧ ws'.tx = ws.committed) ∨
      ∃ j, 0 < j ∧ j ≤ rs.length ∧ (ws.count + j) % filesPerBatch = 0 ∧
        applyAll ws.tx (rs.take j) = Except.ok ws'.committed ∧ ws'.tx = ws'.committed := by
  induction rs with
  | nil =>
    intro ws ws' e h
    simp only [writerRun] at h
    simp at h
  | cons r rs ih =>
    intro ws ws' e h
    simp only [writerRun] at h
    split at h
    next e2 heq =>
      simp only [Prod.mk.injEq] at h
      left
      rw [← h.1]
      exact ⟨rfl, rfl⟩
    next tx2 heq =>
      split at h
      next hmod =>
        rcases ih _ _ _ h with ⟨hc, htx⟩ | ⟨j, hj0, hjle, hjmod, happ, htx⟩
        · right
          refine ⟨1, Nat.one_pos, by simp, by simpa using hmod, ?_, ?_⟩
          · have ht1 : (r :: rs).take 1 = [r] := rfl
            rw [ht1]
            simp only [applyAll, heq]
            simp only at hc
            rw [hc]
          · simp only at hc htx
            rw [htx, hc]
        · right
          refine ⟨j + 1, Nat.succ_pos j, by simpa using Nat.succ_le_succ hjle, ?_, ?_, htx⟩
          · simp only at hjmod
            have he : ws.count + (j + 1) = ws.count + 1 + j := by omega
            rw [he]
            exact hjmod
          · rw [List.take_succ_cons]
            simp only [applyAll, heq]
            simpa using happ
      next hmod =>
        rcases ih _ _ _ h with ⟨hc, htx⟩ | ⟨j, hj0, hjle, hjmod, happ, htx⟩
        · left
          simp only at hc htx
          exact ⟨hc, htx⟩
        · right
          refine ⟨j + 1, Nat.succ_pos j, by simpa using Nat.succ_le_succ hjle, ?_, ?_, htx⟩
          · simp only at hjmod
            have he : ws.count + (j + 1) = ws.count + 1 + j := by omega
            rw [he]
            exact hjmod
          · rw [List.take_succ_cons]
            simp only [applyAll, heq]
            simpa using happ

theorem contains_iff {α : Type} [BEq α] [LawfulBEq α] {l : List α} {a : α} :
    l.contains a = true ↔ a ∈ l := by
  simp [List.contains]

theorem insertOneSample_found {tx tx' : Store} {r : FileRec}
    (h : insertOneSample tx r = Except.ok tx') :
    tx'.found = tx.found ++ [(resolveOrCreateFile tx.files tx.nextId r.path).1] := by
  simp only [insertOneSample] at h
  split at h
  · cases h
  · split at h
    · cases h
    · cases h
      rfl

theorem applyAll_found_mono (rs : List FileRec) :
    ∀ s s', applyAll s rs = Except.ok s' → ∀ id ∈ s.found, id ∈ s'.found := by
  induction rs with
  | nil =>
    intro s s' h id hid
    simp only [applyAll] at h
    cases h
    exact hid
  | cons r rs ih =>
    intro s s' h id hid
    simp only [applyAll] at h
    split at h
    next e heq => cases h
    next s2 heq =>
      refine ih s2 s' h id ?_
      rw [insertOneSample_found heq]
      exact List.mem_append_left _ hid

theorem walkRecords_append (xs ys : List WalkEntry) :
    walkRecords (xs ++ ys) = walkRecords xs ++ walkRecords ys := by
  induction xs with
  | nil => simp [walkRecords]
  | cons e es ih =>
    cases e with
    | statErr msg => simpa [walkRecords] using ih
    | entry p reg m z t now =>
      cases reg <;> simp [walkRecords, ih]

/-! Claim theorems. -/

/-- C1, counterexample.  The claim states that a completed `scanDir` of one
tree deletes no File belonging to a different scope and evicts exactly the
Files of the scanned tree that were not seen.  Concretely: the store holds
File (0, "other/x") from a different tree; a complete scan of a tree
producing the single record "tree/a" deletes (0, "other/x"), because the
eviction DELETE of src/main.go:124 is not scoped to the scanned tree. -/
theorem scanDir_deletes_other_tree_file :
    scanDir { files := [(0, "other/x")], samples := [⟨0, 5, 0, 10, 0⟩],
              found := [], nextId := 1 }
        (some [⟨"tree/a", 420, 7, 1, 100⟩]) =
      Except.ok { files := [(1, "tree/a")], samples := [⟨1, 100, 420, 7, 1⟩],
                  found := [1], nextId := 2 } ∧
    (0, "other/x") ∈ ({ files := [(0, "other/x")], samples := [⟨0, 5, 0, 10, 0⟩],
                        found := [], nextId := 1 } : Store).files ∧
    (0, "other/x") ∉ ({ files := [(1, "tree/a")], samples := [⟨1, 100, 420, 7, 1⟩],
                        found := [1], nextId := 2 } : Store).files := by
  refine ⟨rfl, by decide, by decide⟩

/-- C1, amended: after a `scanDir` that runs to completion, the store holds
exactly the File rows whose identifiers are in the accumulated `found` set
(regardless of which tree a File belongs to), their Samples survive by the
cascade and all others are deleted, the `found` set itself is untouched,
and the eviction applies to the state in which the entire record stream
has been drained into the store (`applyAll`). -/
theorem scanDir_evicts_unfound_after_drain :
    ∀ S rs S', scanDir S (some rs) = Except.ok S' →
      ∃ A, applyAll S rs = Except.ok A ∧
        (∀ f, f ∈ S'.files ↔ f ∈ A.files ∧ f.1 ∈ A.found) ∧
        (∀ smp, smp ∈ S'.samples ↔
          smp ∈ A.samples ∧ smp.fileid ∈ S'.files.map Prod.fst) ∧
        S'.found = A.found := by
  intro S rs S' h
  simp only [scanDir] at h
  split at h
  next ws heq =>
    cases h
    have happ := writerRun_ok_applyAll rs (freshWriter S) ws heq
    simp only [freshWriter] at happ
    refine ⟨ws.committed, happ.1, ?_, ?_, rfl⟩
    · intro f
      simp [evict, List.mem_filter, contains_iff]
    · intro smp
      simp [evict, List.mem_filter, contains_iff]
  next ws e heq => cases h

/-- C1, witness for the amended theorem at a one-record scan of an
initially empty store. -/
theorem scanDir_evicts_unfound_after_drain_witness :
    ∃ A, applyAll { files := [], samples := [], found := [], nextId := 0 }
          [⟨"a", 0, 1, 0, 10⟩] = Except.ok A ∧
      (∀ f, f ∈ ({ files := [(0, "a")], samples := [⟨0, 10, 0, 1, 0⟩],
                   found := [0], nextId := 1 } : Store).files ↔
         f ∈ A.files ∧ f.1 ∈ A.found) ∧
      (∀ smp, smp ∈ ({ files := [(0, "a")], samples := [⟨0, 10, 0, 1, 0⟩],
                       found := [0], nextId := 1 } : Store).samples ↔
         smp ∈ A.samples ∧
           smp.fileid ∈ ({ files := [(0, "a")], samples := [⟨0, 10, 0, 1, 0⟩],
                           found := [0], nextId := 1 } : Store).files.map Prod.fst) ∧
      ({ files := [(0, "a")], samples := [⟨0, 10, 0, 1, 0⟩],
         found := [0], nextId := 1 } : Store).found = A.found :=
  scanDir_evicts_unfound_after_drain
    { files := [], samples := [], found := [], nextId := 0 }
    [⟨"a", 0, 1, 0, 10⟩]
    { files := [(0, "a")], samples := [⟨0, 10, 0, 1, 0⟩], found := [0], nextId := 1 }
    rfl

/-- C2 (code bug).  The claim says a failed canonicalization of the root
performs no Store modification: no Files evicted, tables identical before
and after.  In the code, `scanDir` still executes the eviction DELETE after
`getFiles` returns early, so with an empty `found` set the whole file table
(here the single File (0, "gone/x") and its Sample) is wiped out. -/
theorem scanDir_canon_failure_still_evicts :
    scanDir { files := [(0, "gone/x")], samples := [⟨0, 5, 420, 10, 3⟩],
              found := [], nextId := 1 } none =
      Except.ok { files := [], samples := [], found := [], nextId := 1 } ∧
    ({ files := [(0, "gone/x")], samples := [⟨0, 5, 420, 10, 3⟩],
       found := [], nextId := 1 } : Store).files ≠ [] := by
  refine ⟨rfl, by decide⟩

/-- C4, counterexample.  The claim states the seen-set is empty at the
start of every scan and the eviction decision of scan k uses only files
observed during scan k.  Concretely: after scan 1 records file "a", the
store handed to scan 2 still carries `found = [0]` (the temporary `found`
table is created once in `newFileDB` and never cleared), and a scan 2 of a
tree with no records keeps file "a" alive purely because of the mark left
by scan 1. -/
theorem seen_set_not_reset_between_scans :
    scanDir { files := [], samples := [], found := [], nextId := 0 }
        (some [⟨"a", 0, 1, 0, 10⟩]) =
      Except.ok { files := [(0, "a")], samples := [⟨0, 10, 0, 1, 0⟩],
                  found := [0], nextId := 1 } ∧
    ({ files := [(0, "a")], samples := [⟨0, 10, 0, 1, 0⟩],
       found := [0], nextId := 1 } : Store).found ≠ [] ∧
    scanDir { files := [(0, "a")], samples := [⟨0, 10, 0, 1, 0⟩],
              found := [0], nextId := 1 } (some []) =
      Except.ok { files := [(0, "a")], samples := [⟨0, 10, 0, 1, 0⟩],
                  found := [0], nextId := 1 } ∧
    (0, "a") ∈ ({ files := [(0, "a")], samples := [⟨0, 10, 0, 1, 0⟩],
                  found := [0], nextId := 1 } : Store).files := by
  refine ⟨rfl, by decide, rfl, by decide⟩

/-- C4, amended: the seen-set is created empty when the store connection is
opened and is never reset by `scanDir`; it accumulates across the scans of
one process run, so every identifier marked before a scan is still in the
seen-set after that scan completes. -/
theorem scanDir_found_accumulates :
    ∀ S rs S', scanDir S (some rs) = Except.ok S' → ∀ id ∈ S.found, id ∈ S'.found := by
  intro S rs S' h id hid
  simp only [scanDir] at h
  split at h
  next ws heq =>
    cases h
    have happ := writerRun_ok_applyAll rs (freshWriter S) ws heq
    simp only [freshWriter] at happ
    have hmono := applyAll_found_mono rs S ws.committed happ.1 id hid
    simpa [evict] using hmono
  next ws e heq => cases h

/-- C4, witness: an identifier marked before the scan survives into the
seen-set after the scan. -/
theorem scanDir_found_accumulates_witness :
    (5 : Nat) ∈ ({ files := [], samples := [], found := [5], nextId := 0 } : Store).found ∧
    ∀ S', scanDir { files := [], samples := [], found := [5], nextId := 0 } (some []) =
        Except.ok S' → (5 : Nat) ∈ S'.found :=
  ⟨by decide, fun S' h =>
    scanDir_found_accumulates { files := [], samples := [], found := [5], nextId := 0 }
      [] S' h 5 (by decide)⟩

/-- C5, counterexample.  The claim's commit-count formula
`ceil(m / N) + (1 if m mod N = 0 and m > 0)` predicts 0 commits for an
empty record stream, but the writer of src/main.go:148-173 always commits
the final (here empty) transaction, performing exactly 1 commit. -/
theorem writer_trailing_empty_commit :
    (writerRun (freshWriter { files := [], samples := [], found := [], nextId := 0 })
        []).1.commits = 1 ∧
    (0 + filesPerBatch - 1) / filesPerBatch +
      (if 0 % filesPerBatch = 0 ∧ 0 < (0 : Nat) then 1 else 0) = 0 := by
  refine ⟨rfl, by decide⟩

/-- C5, amended: a successful writer run over m records performs exactly
`m / N + 1` commits (one per full batch of N = 1024 consecutively consumed
records, plus the always-executed final commit of the possibly empty last
batch), and the committed store is the sequential application of every
record exactly once. -/
theorem writer_commit_count :
    ∀ S rs ws, writerRun (freshWriter S) rs = (ws, none) →
      ws.commits = rs.length / filesPerBatch + 1 ∧
      applyAll S rs = Except.ok ws.committed := by
  intro S rs ws h
  have h1 := writerRun_ok_commits rs (freshWriter S) ws h
  have h2 := writerRun_ok_applyAll rs (freshWriter S) ws h
  simp only [freshWriter, Nat.zero_add, Nat.zero_div] at h1 h2
  exact ⟨by omega, h2.1⟩

/-- C5, witness at a one-record stream: one final commit, record applied. -/
theorem writer_commit_count_witness :
    ({ committed := { files := [(0, "a")], samples := [⟨0, 10, 0, 1, 0⟩],
                      found := [0], nextId := 1 },
       tx := { files := [(0, "a")], samples := [⟨0, 10, 0, 1, 0⟩],
               found := [0], nextId := 1 },
       count := 1, commits := 1 } : WriterState).commits =
      ([(⟨"a", 0, 1, 0, 10⟩ : FileRec)]).length / filesPerBatch + 1 ∧
    applyAll { files := [], samples := [], found := [], nextId := 0 }
        [⟨"a", 0, 1, 0, 10⟩] =
      Except.ok ({ committed := { files := [(0, "a")], samples := [⟨0, 10, 0, 1, 0⟩],
                                  found := [0], nextId := 1 },
                   tx := { files := [(0, "a")], samples := [⟨0, 10, 0, 1, 0⟩],
                           found := [0], nextId := 1 },
                   count := 1, commits := 1 } : WriterState).committed :=
  writer_commit_count { files := [], samples := [], found := [], nextId := 0 }
    [⟨"a", 0, 1, 0, 10⟩]
    { committed := { files := [(0, "a")], samples := [⟨0, 10, 0, 1, 0⟩],
                     found := [0], nextId := 1 },
      tx := { files := [(0, "a")], samples := [⟨0, 10, 0, 1, 0⟩],
              found := [0], nextId := 1 },
      count := 1, commits := 1 }
    rfl

/-- C7 (confirmed): a duplicate (fileid, sampletime) key on sample insert
is a UNIQUE-constraint error surfaced through `fatal`, never ignored; when
any insert fails, the writer's open transaction is discarded unapplied
(the durable store equals the state after a whole number of committed
batches, never a half-applied batch) and `scanDir` surfaces the error
without ever reaching the eviction step. -/
theorem write_error_fatal_and_atomic :
    (∀ tx r id, lookupFileId tx.files r.path = some id →
        sampleKeyClash tx.samples id r.now = true →
        insertOneSample tx r =
          Except.error "UNIQUE constraint failed: sample.fileid, sample.sampletime") ∧
    (∀ S rs ws e, writerRun (freshWriter S) rs = (ws, some e) →
        ws.tx = ws.committed ∧
        ∃ j, j % filesPerBatch = 0 ∧ j ≤ rs.length ∧
          applyAll S (List.take j rs) = Except.ok ws.committed) ∧
    (∀ S rs ws e, writerRun (freshWriter S) rs = (ws, some e) →
        scanDir S (some rs) = Except.error e) := by
  refine ⟨?_, ?_, ?_⟩
  · intro tx r id hlook hclash
    simp only [insertOneSample, resolveOrCreateFile, hlook, hclash, if_true]
  · intro S rs ws e h
    rcases writerRun_error_committed rs (freshWriter S) ws e h with
      ⟨hc, htx⟩ | ⟨j, hj0, hjle, hjmod, happ, htx⟩
    · simp only [freshWriter] at hc htx
      refine ⟨by rw [htx, hc], 0, Nat.zero_mod _, Nat.zero_le _, ?_⟩
      simp [applyAll, hc]
    · simp only [freshWriter] at hjmod happ
      refine ⟨htx, j, by simpa using hjmod, hjle, happ⟩
  · intro S rs ws e h
    simp only [scanDir, h]

/-- C7, witness: a record whose (fileid, capture time) key is already
present makes the insert fail, the one-record writer run keeps the durable
store at its initial (whole-batch) state, and the scan surfaces the error. -/
theorem write_error_fatal_and_atomic_witness :
    insertOneSample { files := [(0, "a")], samples := [⟨0, 50, 0, 7, 0⟩],
                      found := [], nextId := 1 } ⟨"a", 0, 7, 0, 50⟩ =
      Except.error "UNIQUE constraint failed: sample.fileid, sample.sampletime" ∧
    (({ committed := { files := [(0, "a")], samples := [⟨0, 50, 0, 7, 0⟩],
                       found := [], nextId := 1 },
        tx := { files := [(0, "a")], samples := [⟨0, 50, 0, 7, 0⟩],
                found := [], nextId := 1 },
        count := 0, commits := 0 } : WriterState).tx =
      ({ committed := { files := [(0, "a")], samples := [⟨0, 50, 0, 7, 0⟩],
                        found := [], nextId := 1 },
         tx := { files := [(0, "a")], samples := [⟨0, 50, 0, 7, 0⟩],
                 found := [], nextId := 1 },
         count := 0, commits := 0 } : WriterState).committed ∧
      ∃ j, j % filesPerBatch = 0 ∧ j ≤ ([(⟨"a", 0, 7, 0, 50⟩ : FileRec)]).length ∧
        applyAll { files := [(0, "a")], samples := [⟨0, 50, 0, 7, 0⟩],
                   found := [], nextId := 1 }
            (List.take j [(⟨"a", 0, 7, 0, 50⟩ : FileRec)]) =
          Except.ok ({ committed := { files := [(0, "a")],
                                      samples := [⟨0, 50, 0, 7, 0⟩],
                                      found := [], nextId := 1 },
                       tx := { files := [(0, "a")], samples := [⟨0, 50, 0, 7, 0⟩],
                               found := [], nextId := 1 },
                       count := 0, commits := 0 } : WriterState).committed) ∧
    scanDir { files := [(0, "a")], samples := [⟨0, 50, 0, 7, 0⟩],
              found := [], nextId := 1 } (some [⟨"a", 0, 7, 0, 50⟩]) =
      Except.error "UNIQUE constraint failed: sample.fileid, sample.sampletime" :=
  ⟨write_error_fatal_and_atomic.1
      { files := [(0, "a")], samples := [⟨0, 50, 0, 7, 0⟩], found := [], nextId := 1 }
      ⟨"a", 0, 7, 0, 50⟩ 0 rfl rfl,
   write_error_fatal_and_atomic.2.1
      { files := [(0, "a")], samples := [⟨0, 50, 0, 7, 0⟩], found := [], nextId := 1 }
      [⟨"a", 0, 7, 0, 50⟩]
      { committed := { files := [(0, "a")], samples := [⟨0, 50, 0, 7, 0⟩],
                       found := [], nextId := 1 },
        tx := { files := [(0, "a")], samples := [⟨0, 50, 0, 7, 0⟩],
                found := [], nextId := 1 },
        count := 0, commits := 0 }
      "UNIQUE constraint failed: sample.fileid, sample.sampletime" rfl,
   write_error_fatal_and_atomic.2.2
      { files := [(0, "a")], samples := [⟨0, 50, 0, 7, 0⟩], found := [], nextId := 1 }
      [⟨"a", 0, 7, 0, 50⟩]
      { committed := { files := [(0, "a")], samples := [⟨0, 50, 0, 7, 0⟩],
                       found := [], nextId := 1 },
        tx := { files := [(0, "a")], samples := [⟨0, 50, 0, 7, 0⟩],
                found := [], nextId := 1 },
        count := 0, commits := 0 }
      "UNIQUE constraint failed: sample.fileid, sample.sampletime" rfl⟩

/-- C9 (confirmed): the walk is best-effort: a stat error among the
entries removes only that entry from the record stream (the records of the
other entries are unaffected), non-regular entries (directories, symlinks,
devices) never produce records, a regular entry produces exactly its one
record, and the number of records equals the number of regular
successfully stat'ed entries. -/
theorem walk_best_effort :
    (∀ es1 es2 msg, walkRecords (es1 ++ WalkEntry.statErr msg :: es2) =
        walkRecords es1 ++ walkRecords es2) ∧
    (∀ p m z t now es,
        walkRecords (WalkEntry.entry p false m z t now :: es) = walkRecords es) ∧
    (∀ p m z t now es,
        walkRecords (WalkEntry.entry p true m z t now :: es) =
          ⟨p, m, z, t, now⟩ :: walkRecords es) ∧
    (∀ es, (walkRecords es).length =
        es.countP (fun e => match e with
          | WalkEntry.entry _ true _ _ _ _ => true
          | _ => false)) := by
  refine ⟨?_, ?_, ?_, ?_⟩
  · intro es1 es2 msg
    rw [walkRecords_append]
    rfl
  · intro p m z t now es
    rfl
  · intro p m z t now es
    rfl
  · intro es
    induction es with
    | nil => rfl
    | cons e es ih =>
      cases e with
      | statErr msg => simpa [walkRecords, List.countP_cons] using ih
      | entry p reg m z t now =>
        cases reg <;> simp [walkRecords, List.countP_cons, ih]

/-- C10 (code bug in the second revision).  For a record whose path is not
yet in the file table, the first revision (src/main.go:189-212, also
src/unnamed/part_000:180-203) creates the File row, appends the Sample,
marks the file seen and returns normally; the second revision
(src/main.go:510-532) instead dies in `fatal` on the shadow-retained
`sql.ErrNoRows` of the lookup, so the revisions are not equivalent. -/
theorem insertOneSample_revisions_diverge :
    insertOneSample { files := [], samples := [], found := [], nextId := 0 }
        ⟨"a", 420, 7, 3, 50⟩ =
      Except.ok { files := [(0, "a")], samples := [⟨0, 50, 420, 7, 3⟩],
                  found := [0], nextId := 1 } ∧
    insertOneSampleV2 { files := [], samples := [], found := [], nextId := 0 }
        ⟨"a", 420, 7, 3, 50⟩ =
      Except.error "sql: no rows in result set" :=
  ⟨rfl, rfl⟩

/-- C8, counterexample.  The claim says scanning the same unchanged tree
twice never duplicates Files and adds exactly one new Sample per file per
scan.  Within one process run the seen-set persists (the temporary `found`
table of `newFileDB` is never cleared), so on the second scan of the same
tree the `markFound` insert violates the `found` primary key for the very
first file and `fatal` aborts the scan: starting from exactly the store
that scan 1 of file "a" leaves behind, rescanning "a" at a fresh capture
time yields the UNIQUE-constraint error and durably adds no Sample at
all, rather than one per file. -/
theorem same_run_rescan_aborts_cex :
    scanDir { files := [(0, "a")], samples := [⟨0, 10, 0, 1, 0⟩],
              found := [0], nextId := 1 }
        (some [⟨"a", 0, 1, 0, 20⟩]) =
      Except.error "UNIQUE constraint failed: found.fileid" := rfl

/-- C8, amended: the lookup-or-insert of `insertOneSample` is idempotent
and keyed uniquely on path — repeating it returns the same file identifier
and leaves the file table unchanged with exactly one row for the path, so
rescanning never duplicates Files.  Re-ingesting a record for an
already-known path at a fresh capture time appends exactly one Sample and
creates no File only when the file is not yet in the current seen-set
(scans in separate process runs, where the temporary `found` table starts
fresh); when the seen-set already holds the file (a second scan in the
same run) the `markFound` insert is a `found` primary-key violation and
the ingestion aborts through `fatal` instead. -/
theorem resolveOrCreateFile_idempotent :
    (∀ files nextId path,
      (files.countP (fun f => f.2 == path)) ≤ 1 →
      (resolveOrCreateFile (resolveOrCreateFile files nextId path).2.1
          (resolveOrCreateFile files nextId path).2.2 path).1 =
        (resolveOrCreateFile files nextId path).1 ∧
      (resolveOrCreateFile (resolveOrCreateFile files nextId path).2.1
          (resolveOrCreateFile files nextId path).2.2 path).2.1 =
        (resolveOrCreateFile files nextId path).2.1 ∧
      ((resolveOrCreateFile files nextId path).2.1.countP (fun f => f.2 == path)) = 1) ∧
    (∀ tx r id, lookupFileId tx.files r.path = some id →
      sampleKeyClash tx.samples id r.now = false →
      tx.found.contains id = false →
      insertOneSample tx r =
        Except.ok { files := tx.files,
                    samples := tx.samples ++ [⟨id, r.now, r.mode, r.size, r.mtime⟩],
                    found := tx.found ++ [id],
                    nextId := tx.nextId }) ∧
    (∀ tx r id, lookupFileId tx.files r.path = some id →
      sampleKeyClash tx.samples id r.now = false →
      tx.found.contains id = true →
      insertOneSample tx r =
        Except.error "UNIQUE constraint failed: found.fileid") := by
  refine ⟨?_, ?_, ?_⟩
  · intro files nextId path hle
    cases hl : lookupFileId files path with
    | some id =>
      simp only [resolveOrCreateFile, hl]
      refine ⟨trivial, trivial, ?_⟩
      rcases Option.map_eq_some'.mp hl with ⟨f0, hfind, hid⟩
      have hmem := List.mem_of_find?_eq_some hfind
      have hp := @List.find?_some _ (fun f => f.2 == path) f0 files hfind
      have hpos : 0 < files.countP (fun f => f.2 == path) :=
        List.countP_pos_iff.mpr ⟨f0, hmem, hp⟩
      omega
    | none =>
      have hfind : files.find? (fun f => f.2 == path) = none := Option.map_eq_none'.mp hl
      have hl2 : lookupFileId (files ++ [(nextId, path)]) path = some nextId := by
        simp only [lookupFileId, List.find?_append, hfind, Option.none_or]
        simp
      simp only [resolveOrCreateFile, hl, hl2]
      refine ⟨trivial, trivial, ?_⟩
      rw [List.countP_append]
      have h0 : files.countP (fun f => f.2 == path) = 0 :=
        List.countP_eq_zero.mpr (List.find?_eq_none.mp hfind)
      simp [h0, List.countP_cons]
  · intro tx r id hlook hclash hfound
    simp only [insertOneSample, resolveOrCreateFile, hlook, hclash, hfound]
    simp
  · intro tx r id hlook hclash hfound
    simp only [insertOneSample, resolveOrCreateFile, hlook, hclash, hfound]
    simp

/-- C8, witness for the amended theorem: looking "p" up twice in a one-row
table returns the same identifier 3 and keeps the single row; re-ingesting
"p" at a fresh capture time with the seen-set empty appends exactly one
Sample; re-ingesting "p" with 3 already in the seen-set aborts with the
`found` primary-key violation. -/
theorem resolveOrCreateFile_idempotent_witness :
    ((resolveOrCreateFile (resolveOrCreateFile [(3, "p")] 7 "p").2.1
        (resolveOrCreateFile [(3, "p")] 7 "p").2.2 "p").1 =
      (resolveOrCreateFile [(3, "p")] 7 "p").1 ∧
     (resolveOrCreateFile (resolveOrCreateFile [(3, "p")] 7 "p").2.1
        (resolveOrCreateFile [(3, "p")] 7 "p").2.2 "p").2.1 =
      (resolveOrCreateFile [(3, "p")] 7 "p").2.1 ∧
     ((resolveOrCreateFile [(3, "p")] 7 "p").2.1.countP (fun f => f.2 == "p")) = 1) ∧
    insertOneSample { files := [(3, "p")], samples := [], found := [], nextId := 7 }
        ⟨"p", 1, 2, 3, 4⟩ =
      Except.ok { files := [(3, "p")], samples := [⟨3, 4, 1, 2, 3⟩],
                  found := [3], nextId := 7 } ∧
    insertOneSample { files := [(3, "p")], samples := [], found := [3], nextId := 7 }
        ⟨"p", 1, 2, 3, 4⟩ =
      Except.error "UNIQUE constraint failed: found.fileid" :=
  ⟨resolveOrCreateFile_idempotent.1 [(3, "p")] 7 "p" (by decide),
   resolveOrCreateFile_idempotent.2.1
     { files := [(3, "p")], samples := [], found := [], nextId := 7 }
     ⟨"p", 1, 2, 3, 4⟩ 3 rfl rfl rfl,
   resolveOrCreateFile_idempotent.2.2
     { files := [(3, "p")], samples := [], found := [3], nextId := 7 }
     ⟨"p", 1, 2, 3, 4⟩ 3 rfl rfl rfl⟩

/-- C3, counterexample.  The claim computes the rate as (size at the latest
capture time − size at the earliest capture time) / elapsed time, which is
−1 for a file that shrank from 200 bytes at time 0 to 100 bytes at time
100; `getFastest` instead computes (max(size) − min(size)) / elapsed,
which yields +1 for this file. -/
theorem getFastest_shrinking_file_cex :
    getFastest { files := [(0, "f")],
                 samples := [⟨0, 0, 0, 200, 0⟩, ⟨0, 100, 0, 100, 0⟩],
                 found := [], nextId := 1 } 1 = [(0, some 1)] ∧
    ¬ ((1 : Int) = Int.tdiv (100 - 200) (100 - 0)) := by
  refine ⟨by decide, by decide⟩

theorem nodup_all_eq_len_le_one {β : Type} {l : List β} (h : l.Nodup) {c : β}
    (hall : ∀ x ∈ l, x = c) : l.length ≤ 1 := by
  match l with
  | [] => simp
  | [x] => simp
  | x :: y :: t =>
    exfalso
    have hx : x = c := hall x (by simp)
    have hy : y = c := hall y (by simp)
    rcases List.pairwise_cons.mp h with ⟨hne, -⟩
    exact hne y (by simp) (by rw [hx, hy])

theorem nodup_map_filter_len_le_one {β γ : Type} {key : β → γ} {l : List β}
    {p : β → Bool} (hnd : (l.map key).Nodup) (c : γ)
    (hall : ∀ x ∈ l.filter p, key x = c) : (l.filter p).length ≤ 1 := by
  have hsub : (l.filter p).Sublist l := List.filter_sublist l
  have hnd2 : ((l.filter p).map key).Nodup :=
    List.Nodup.sublist (List.Sublist.map key hsub) hnd
  have hall2 : ∀ y ∈ (l.filter p).map key, y = c := by
    intro y hy
    rcases List.mem_map.mp hy with ⟨x, hx, hxy⟩
    rw [← hxy]
    exact hall x hx
  have := nodup_all_eq_len_le_one hnd2 hall2
  simpa using this

theorem mem_latestRowsFor {samples : List Sample} {f : Nat × String}
    {row : String × Sample} (h : row ∈ latestRowsFor samples f) :
    row.2 ∈ samples ∧ row.2.fileid = f.1 ∧ row.1 = f.2 ∧
      maxT (timesOf samples f.1) = some row.2.sampletime := by
  simp only [latestRowsFor, List.mem_map] at h
  rcases h with ⟨smp, hmem, heq⟩
  rw [List.mem_filter] at hmem
  rcases hmem with ⟨hs, hp⟩
  rw [Bool.and_eq_true] at hp
  rcases hp with ⟨h1, h2⟩
  rw [beq_iff_eq] at h1 h2
  rw [← heq]
  exact ⟨hs, h1, rfl, h2⟩

theorem mem_latestJoinAux {samples : List Sample} :
    ∀ {files : List (Nat × String)} {row : String × Sample},
      row ∈ latestJoinAux samples files →
        ∃ f, f ∈ files ∧ row ∈ latestRowsFor samples f := by
  intro files
  induction files with
  | nil => intro row h; simp [latestJoinAux] at h
  | cons f fs ih =>
    intro row h
    simp only [latestJoinAux, List.mem_append] at h
    rcases h with h | h
    · exact ⟨f, by simp, h⟩
    · rcases ih h with ⟨g, hg, hrow⟩
      exact ⟨g, List.mem_cons_of_mem f hg, hrow⟩

theorem latestRowsFor_len_le_one {samples : List Sample}
    (hpk : (samples.map (fun smp => (smp.fileid, smp.sampletime))).Nodup)
    (f : Nat × String) : (latestRowsFor samples f).length ≤ 1 := by
  simp only [latestRowsFor, List.length_map]
  cases hmax : maxT (timesOf samples f.1) with
  | none =>
    refine nodup_map_filter_len_le_one hpk (f.1, 0) ?_
    intro smp hs
    rw [List.mem_filter] at hs
    rcases hs with ⟨-, hp⟩
    rw [Bool.and_eq_true] at hp
    simp at hp
  | some m =>
    refine nodup_map_filter_len_le_one hpk (f.1, m) ?_
    intro smp hs
    rw [List.mem_filter] at hs
    rcases hs with ⟨-, hp⟩
    rw [Bool.and_eq_true] at hp
    rcases hp with ⟨h1, h2⟩
    rw [beq_iff_eq] at h1 h2
    rcases Option.some.inj h2 with h3
    rw [h1, ← h3]

theorem countP_latestJoinAux_le_one {samples : List Sample}
    (hpk : (samples.map (fun smp => (smp.fileid, smp.sampletime))).Nodup) :
    ∀ (files : List (Nat × String)), (files.map Prod.fst).Nodup →
      ∀ fid, (latestJoinAux samples files).countP
          (fun row => row.2.fileid == fid) ≤ 1 := by
  intro files
  induction files with
  | nil => intro _ fid; simp [latestJoinAux]
  | cons f fs ih =>
    intro hnd fid
    rw [List.map_cons] at hnd
    rcases List.pairwise_cons.mp hnd with ⟨hout, hnd2⟩
    simp only [latestJoinAux, List.countP_append]
    by_cases hf : f.1 = fid
    · have hrest : (latestJoinAux samples fs).countP
          (fun row => row.2.fileid == fid) = 0 := by
        rw [List.countP_eq_zero]
        intro row hrow
        rcases mem_latestJoinAux hrow with ⟨g, hg, hrowg⟩
        rcases mem_latestRowsFor hrowg with ⟨-, hfid, -, -⟩
        have hgmem : g.1 ∈ fs.map Prod.fst := List.mem_map_of_mem Prod.fst hg
        have hne : g.1 ≠ fid := by
          rw [← hf]
          exact fun hc => hout g.1 hgmem hc.symm
        simp only [beq_iff_eq, hfid]
        exact hne
      have hblock : (latestRowsFor samples f).countP
          (fun row => row.2.fileid == fid) ≤ (latestRowsFor samples f).length :=
        List.countP_le_length _
      have hlen := latestRowsFor_len_le_one hpk f
      omega
    · have hblock : (latestRowsFor samples f).countP
          (fun row => row.2.fileid == fid) = 0 := by
        rw [List.countP_eq_zero]
        intro row hrow
        rcases mem_latestRowsFor hrow with ⟨-, hfid, -, -⟩
        simp only [beq_iff_eq, hfid]
        exact hf
      have := ih hnd2 fid
      omega

theorem latestRanking_ok (s : Store) (n : Nat)
    (le : (String × Sample) → (String × Sample) → Bool)
    (htr : ∀ a b c, le a b = true → le b c = true → le a c = true)
    (hto : ∀ a b, le a b = true ∨ le b a = true)
    (hpk : (s.samples.map (fun smp => (smp.fileid, smp.sampletime))).Nodup)
    (hfk : (s.files.map Prod.fst).Nodup) :
    RankingOk s n (latestRanking s le n) ∧
    List.Pairwise (fun a b => le a b = true) (latestRanking s le n) := by
  constructor
  · refine ⟨?_, ?_, ?_⟩
    · rw [latestRanking, List.length_take, (sortBy_perm le (latestJoin s)).length_eq]
    · intro fid
      have h1 : (latestRanking s le n).countP (fun row => row.2.fileid == fid) ≤
          (sortBy le (latestJoin s)).countP (fun row => row.2.fileid == fid) :=
        List.Sublist.countP_le _ (List.take_sublist n _)
      have h2 : (sortBy le (latestJoin s)).countP (fun row => row.2.fileid == fid) =
          (latestJoin s).countP (fun row => row.2.fileid == fid) :=
        (sortBy_perm le _).countP_eq _
      have h3 : (latestJoin s).countP (fun row => row.2.fileid == fid) ≤ 1 :=
        countP_latestJoinAux_le_one hpk s.files hfk fid
      omega
    · intro row hrow
      have h1 : row ∈ sortBy le (latestJoin s) :=
        (List.take_sublist n _).subset hrow
      have h2 : row ∈ latestJoin s := (sortBy_perm le _).subset h1
      rcases mem_latestJoinAux h2 with ⟨f, hf, hrowf⟩
      rcases mem_latestRowsFor hrowf with ⟨hsmem, hfid, hpath, hmax⟩
      refine ⟨hsmem, ?_, ?_⟩
      · rw [hfid, hpath]
        simpa using hf
      · intro smp hsm hsf
        have hmem : smp.sampletime ∈ timesOf s.samples f.1 := by
          simp only [timesOf, List.mem_map]
          refine ⟨smp, ?_, rfl⟩
          rw [List.mem_filter]
          refine ⟨hsm, ?_⟩
          rw [beq_iff_eq, hsf, hfid]
        exact (maxT_spec hmax).2 _ hmem
  · exact List.Pairwise.sublist (List.take_sublist n _) (pairwise_sortBy htr hto _)

/-- C6 (confirmed): `getBiggest`, `getOldest` and `getNewest` each return
at most `limit` rows (exactly `min limit available`, never padded and
never failing), at most one row per File, each row carrying one of that
file's samples of maximal capture time, ordered by size descending,
modification time ascending, and modification time descending
respectively.  The hypotheses are the schema's primary keys: the sample
table's (fileid, sampletime) keys and the file table's fileids are free
of duplicates. -/
theorem latest_sample_rankings_correct :
    ∀ s n, (s.samples.map (fun smp => (smp.fileid, smp.sampletime))).Nodup →
      (s.files.map Prod.fst).Nodup →
      (RankingOk s n (getBiggest s n) ∧
        List.Pairwise (fun a b => b.2.size ≤ a.2.size) (getBiggest s n)) ∧
      (RankingOk s n (getOldest s n) ∧
        List.Pairwise (fun a b => a.2.mtime ≤ b.2.mtime) (getOldest s n)) ∧
      (RankingOk s n (getNewest s n) ∧
        List.Pairwise (fun a b => b.2.mtime ≤ a.2.mtime) (getNewest s n)) := by
  intro s n hpk hfk
  have htrS : ∀ a b c, bySizeDesc a b = true → bySizeDesc b c = true →
      bySizeDesc a c = true := by
    intro a b c hab hbc
    simp only [bySizeDesc, decide_eq_true_eq] at *
    omega
  have htoS : ∀ a b, bySizeDesc a b = true ∨ bySizeDesc b a = true := by
    intro a b
    simp only [bySizeDesc, decide_eq_true_eq]
    omega
  have htrO : ∀ a b c, byMtimeAsc a b = true → byMtimeAsc b c = true →
      byMtimeAsc a c = true := by
    intro a b c hab hbc
    simp only [byMtimeAsc, decide_eq_true_eq] at *
    omega
  have htoO : ∀ a b, byMtimeAsc a b = true ∨ byMtimeAsc b a = true := by
    intro a b
    simp only [byMtimeAsc, decide_eq_true_eq]
    omega
  have htrN : ∀ a b c, byMtimeDesc a b = true → byMtimeDesc b c = true →
      byMtimeDesc a c = true := by
    intro a b c hab hbc
    simp only [byMtimeDesc, decide_eq_true_eq] at *
    omega
  have htoN : ∀ a b, byMtimeDesc a b = true ∨ byMtimeDesc b a = true := by
    intro a b
    simp only [byMtimeDesc, decide_eq_true_eq]
    omega
  have hbig := latestRanking_ok s n bySizeDesc htrS htoS hpk hfk
  have hold := latestRanking_ok s n byMtimeAsc htrO htoO hpk hfk
  have hnew := latestRanking_ok s n byMtimeDesc htrN htoN hpk hfk
  refine ⟨⟨hbig.1, hbig.2.imp ?_⟩, ⟨hold.1, hold.2.imp ?_⟩, ⟨hnew.1, hnew.2.imp ?_⟩⟩
  · intro a b h
    exact of_decide_eq_true h
  · intro a b h
    exact of_decide_eq_true h
  · intro a b h
    exact of_decide_eq_true h

/-- C6, witness at the spec's ranking example: three files of sizes 10,
1000 and 500 bytes with one sample each, limit 2. -/
theorem latest_sample_rankings_correct_witness :
    (RankingOk { files := [(0, "a"), (1, "b"), (2, "c")],
                 samples := [⟨0, 1, 0, 10, 5⟩, ⟨1, 1, 0, 1000, 6⟩, ⟨2, 1, 0, 500, 7⟩],
                 found := [], nextId := 3 } 2
        (getBiggest { files := [(0, "a"), (1, "b"), (2, "c")],
                      samples := [⟨0, 1, 0, 10, 5⟩, ⟨1, 1, 0, 1000, 6⟩, ⟨2, 1, 0, 500, 7⟩],
                      found := [], nextId := 3 } 2) ∧
      List.Pairwise (fun a b => b.2.size ≤ a.2.size)
        (getBiggest { files := [(0, "a"), (1, "b"), (2, "c")],
                      samples := [⟨0, 1, 0, 10, 5⟩, ⟨1, 1, 0, 1000, 6⟩, ⟨2, 1, 0, 500, 7⟩],
                      found := [], nextId := 3 } 2)) ∧
    (RankingOk { files := [(0, "a"), (1, "b"), (2, "c")],
                 samples := [⟨0, 1, 0, 10, 5⟩, ⟨1, 1, 0, 1000, 6⟩, ⟨2, 1, 0, 500, 7⟩],
                 found := [], nextId := 3 } 2
        (getOldest { files := [(0, "a"), (1, "b"), (2, "c")],
                     samples := [⟨0, 1, 0, 10, 5⟩, ⟨1, 1, 0, 1000, 6⟩, ⟨2, 1, 0, 500, 7⟩],
                     found := [], nextId := 3 } 2) ∧
      List.Pairwise (fun a b => a.2.mtime ≤ b.2.mtime)
        (getOldest { files := [(0, "a"), (1, "b"), (2, "c")],
                     samples := [⟨0, 1, 0, 10, 5⟩, ⟨1, 1, 0, 1000, 6⟩, ⟨2, 1, 0, 500, 7⟩],
                     found := [], nextId := 3 } 2)) ∧
    (RankingOk { files := [(0, "a"), (1, "b"), (2, "c")],
                 samples := [⟨0, 1, 0, 10, 5⟩, ⟨1, 1, 0, 1000, 6⟩, ⟨2, 1, 0, 500, 7⟩],
                 found := [], nextId := 3 } 2
        (getNewest { files := [(0, "a"), (1, "b"), (2, "c")],
                     samples := [⟨0, 1, 0, 10, 5⟩, ⟨1, 1, 0, 1000, 6⟩, ⟨2, 1, 0, 500, 7⟩],
                     found := [], nextId := 3 } 2) ∧
      List.Pairwise (fun a b => b.2.mtime ≤ a.2.mtime)
        (getNewest { files := [(0, "a"), (1, "b"), (2, "c")],
                     samples := [⟨0, 1, 0, 10, 5⟩, ⟨1, 1, 0, 1000, 6⟩, ⟨2, 1, 0, 500, 7⟩],
                     found := [], nextId := 3 } 2)) :=
  latest_sample_rankings_correct
    { files := [(0, "a"), (1, "b"), (2, "c")],
      samples := [⟨0, 1, 0, 10, 5⟩, ⟨1, 1, 0, 1000, 6⟩, ⟨2, 1, 0, 500, 7⟩],
      found := [], nextId := 3 } 2 (by decide) (by decide)

theorem rateGE_trans (a b c : Nat × Option Int) (hab : rateGE a b = true)
    (hbc : rateGE b c = true) : rateGE a c = true := by
  rcases a with ⟨fa, ra⟩
  rcases b with ⟨fb, rb⟩
  rcases c with ⟨fc, rc⟩
  cases ra with
  | none =>
    cases rc with
    | none => rfl
    | some z =>
      cases rb with
      | none => simp [rateGE] at hbc
      | some y => simp [rateGE] at hab
  | some x =>
    cases rc with
    | none => rfl
    | some z =>
      cases rb with
      | none => simp [rateGE] at hbc
      | some y =>
        simp only [rateGE, decide_eq_true_eq] at hab hbc ⊢
        omega

theorem rateGE_total (a b : Nat × Option Int) :
    rateGE a b = true ∨ rateGE b a = true := by
  rcases a with ⟨fa, ra⟩
  rcases b with ⟨fb, rb⟩
  cases ra with
  | none =>
    cases rb with
    | none => exact Or.inl rfl
    | some y => exact Or.inr rfl
  | some x =>
    cases rb with
    | none => exact Or.inl rfl
    | some y =>
      simp only [rateGE, decide_eq_true_eq]
      omega

theorem rateGE_interp {a b : Nat × Option Int} (h : rateGE a b = true) :
    b.2 = none ∨ ∃ x y, b.2 = some x ∧ a.2 = some y ∧ x ≤ y := by
  rcases a with ⟨fa, ra⟩
  rcases b with ⟨fb, rb⟩
  cases rb with
  | none => exact Or.inl rfl
  | some x =>
    cases ra with
    | none => simp [rateGE] at h
    | some y =>
      refine Or.inr ⟨x, y, rfl, rfl, ?_⟩
      simpa [rateGE] using h

/-- C3, amended: `getFastest` ranks files by the rate
(max(size) − min(size)) / (max(sampletime) − min(sampletime)) over all
samples of the file to date (SQLite integer division), which coincides
with the claimed latest-minus-earliest quotient only when the extreme
sizes occur at the extreme times; the result has at most `limit` rows,
is ordered by rate descending with NULL rates sorting last, every
returned row carries exactly this rate for its file, and a file with a
single sample has a NULL rate. -/
theorem getFastest_rate_and_order :
    ∀ s n,
      (getFastest s n).length ≤ n ∧
      List.Pairwise
        (fun a b => b.2 = none ∨ ∃ x y, b.2 = some x ∧ a.2 = some y ∧ x ≤ y)
        (getFastest s n) ∧
      (∀ p, p ∈ getFastest s n → p.2 = rateOf s.samples p.1) ∧
      (∀ fid z, s.samples.filter (fun smp => smp.fileid == fid) = [z] →
        rateOf s.samples fid = none) := by
  intro s n
  refine ⟨List.length_take_le n _, ?_, ?_, ?_⟩
  · have hp := pairwise_sortBy rateGE_trans rateGE_total
      ((fastestGroups s).map (fun fid => (fid, rateOf s.samples fid)))
    exact (List.Pairwise.sublist (List.take_sublist n _) hp).imp
      (fun h => rateGE_interp h)
  · intro p hp
    have h1 : p ∈ sortBy rateGE ((fastestGroups s).map
        (fun fid => (fid, rateOf s.samples fid))) :=
      (List.take_sublist n _).subset hp
    have h2 := (sortBy_perm rateGE _).subset h1
    rcases List.mem_map.mp h2 with ⟨fid, hfid, heq⟩
    rw [← heq]
  · intro fid z hz
    have ht : timesOf s.samples fid = [z.sampletime] := by
      rw [timesOf, hz]
      rfl
    have hs : sizesOf s.samples fid = [z.size] := by
      rw [sizesOf, hz]
      rfl
    simp [rateOf, ht, hs, maxT, minT]

/-- C3, witness for the amended theorem: a file that grew from 100 bytes
at time 0 to 200 bytes at time 100 gets rate 1 and is returned, and a
file with a single sample gets a NULL rate. -/
theorem getFastest_rate_and_order_witness :
    (getFastest { files := [(0, "g"), (1, "s")],
                  samples := [⟨0, 0, 0, 100, 0⟩, ⟨0, 100, 0, 200, 0⟩, ⟨1, 5, 0, 50, 0⟩],
                  found := [], nextId := 2 } 5).length ≤ 5 ∧
    (((0 : Nat), some (1 : Int)) : Nat × Option Int).2 =
      rateOf ({ files := [(0, "g"), (1, "s")],
                samples := [⟨0, 0, 0, 100, 0⟩, ⟨0, 100, 0, 200, 0⟩, ⟨1, 5, 0, 50, 0⟩],
                found := [], nextId := 2 } : Store).samples
        (((0 : Nat), some (1 : Int)) : Nat × Option Int).1 ∧
    rateOf ({ files := [(0, "g"), (1, "s")],
              samples := [⟨0, 0, 0, 100, 0⟩, ⟨0, 100, 0, 200, 0⟩, ⟨1, 5, 0, 50, 0⟩],
              found := [], nextId := 2 } : Store).samples 1 = none :=
  ⟨(getFastest_rate_and_order
      { files := [(0, "g"), (1, "s")],
        samples := [⟨0, 0, 0, 100, 0⟩, ⟨0, 100, 0, 200, 0⟩, ⟨1, 5, 0, 50, 0⟩],
        found := [], nextId := 2 } 5).1,
   (getFastest_rate_and_order
      { files := [(0, "g"), (1, "s")],
        samples := [⟨0, 0, 0, 100, 0⟩, ⟨0, 100, 0, 200, 0⟩, ⟨1, 5, 0, 50, 0⟩],
        found := [], nextId := 2 } 5).2.2.1 (0, some 1) (by decide),
   (getFastest_rate_and_order
      { files := [(0, "g"), (1, "s")],
        samples := [⟨0, 0, 0, 100, 0⟩, ⟨0, 100, 0, 200, 0⟩, ⟨1, 5, 0, 50, 0⟩],
        found := [], nextId := 2 } 5).2.2.2 1 ⟨1, 5, 0, 50, 0⟩ (by decide)⟩

end Filebase
